import Mathlib

/-!
Verification of the PMBus register-access and numeric-codec engine of the
sugarloaf_i2c repository.  The Python sources (pmbus_common.py, powertool.py,
Sugarloaf_I2C_ver2.py) are shallowly embedded: pure conversion functions
become Lean functions over ℕ/ℤ/ℚ (Python floats on these code paths only ever
hold integers scaled by powers of two, hence exact in ℚ), raised exceptions
become Except/Option values, and the sampling loop becomes an explicit state
machine.
-/

set_option maxRecDepth 4096

/-- Embedding of `twos_comp(val, bits)` from powertool.py: if the sign bit is
set, subtract `1 <<< bits`. -/
def twos_comp (val : ℕ) (bits : ℕ) : ℤ :=
  if val &&& (1 <<< (bits - 1)) ≠ 0 then (val : ℤ) - (1 <<< bits : ℕ) else (val : ℤ)

/-- Embedding of `parse_vout_mode` from pmbus_common.py: 5-bit two's-complement
exponent in bits 4:0 of the VOUT_MODE byte. -/
def parse_vout_mode (vout_mode_byte : ℕ) : ℤ :=
  let exponent := vout_mode_byte &&& 0x1F
  if exponent &&& 0x10 ≠ 0 then (exponent : ℤ) - 32 else (exponent : ℤ)

/-- Embedding of `parse_linear11` from pmbus_common.py: 5-bit two's-complement
exponent in bits 15:11, 11-bit two's-complement mantissa in bits 10:0,
value = mantissa × 2^exponent. -/
def parse_linear11 (data : ℕ) : ℚ :=
  let exponent : ℤ :=
    let e := (data >>> 11) &&& 0x1F
    if e &&& 0x10 ≠ 0 then (e : ℤ) - 32 else (e : ℤ)
  let mantissa : ℤ :=
    let m := data &&& 0x7FF
    if m &&& 0x400 ≠ 0 then (m : ℤ) - 2048 else (m : ℤ)
  (mantissa : ℚ) * (2 : ℚ) ^ exponent

/-- Embedding of `parse_linear16` from pmbus_common.py: unsigned 16-bit
mantissa times 2^exponent. -/
def parse_linear16 (data : ℕ) (exponent : ℤ) : ℚ :=
  (data : ℚ) * (2 : ℚ) ^ exponent

/-- Embedding of `convert_vout` from pmbus_common.py: decode READ_VOUT using
the VOUT_MODE exponent, substituting −10 when the decoded exponent is 0. -/
def convert_vout (raw_value : ℕ) (vout_mode_byte : ℕ) : ℚ :=
  let exponent := parse_vout_mode vout_mode_byte
  parse_linear16 raw_value (if exponent = 0 then -10 else exponent)

/-- Embedding of `PMBusCommands.Read_Vout` from pmbus_common.py.  The
VOUT_MODE register read can raise; `vout_mode` is `some b` when the transport
returned byte `b` (the code masks the word read with 0xFF) and `none` when the
read raised, in which case the `except` branch substitutes exponent −10.  A
decoded exponent of exactly 0 is likewise replaced by −10. -/
def Read_Vout (vout_mode : Option ℕ) (raw_value : ℕ) : ℚ :=
  let exponent : ℤ :=
    match vout_mode with
    | some b =>
      let e := parse_vout_mode (b &&& 0xFF)
      if e = 0 then -10 else e
    | none => -10
  parse_linear16 raw_value exponent

/-- Embedding of the Linear11 decode inlined in `PowerToolI2C.Read_Iout`
(powertool.py): `twos_comp` on the 5-bit exponent, conditional subtraction of
0x800 on the 11-bit mantissa. -/
def Read_Iout_decode (data : ℕ) : ℚ :=
  let exponent := twos_comp ((data >>> 11) &&& 0x1F) 5
  let mantissa_raw := data &&& 0x7FF
  let mantissa : ℤ :=
    if mantissa_raw &&& 0x400 ≠ 0 then (mantissa_raw : ℤ) - 0x800 else (mantissa_raw : ℤ)
  (mantissa : ℚ) * (2 : ℚ) ^ exponent

/-- A 5-bit value has its sign bit (bit 4) set iff it is at least 16. -/
theorem and_16_ne_zero_iff (n : ℕ) (h : n < 32) : n &&& 16 ≠ 0 ↔ 16 ≤ n := by
  have h1 := Nat.and_two_pow n 4
  have h2 : n.testBit 4 = decide (n / 2 ^ 4 % 2 = 1) := Nat.testBit_to_div_mod
  norm_num at h1 h2
  rw [h1, h2]
  by_cases hc : n / 16 % 2 = 1 <;> simp [hc] <;> omega

/-- An 11-bit value has its sign bit (bit 10) set iff it is at least 1024. -/
theorem and_1024_ne_zero_iff (n : ℕ) (h : n < 2048) : n &&& 1024 ≠ 0 ↔ 1024 ≤ n := by
  have h1 := Nat.and_two_pow n 10
  have h2 : n.testBit 10 = decide (n / 2 ^ 10 % 2 = 1) := Nat.testBit_to_div_mod
  norm_num at h1 h2
  rw [h1, h2]
  by_cases hc : n / 1024 % 2 = 1 <;> simp [hc] <;> omega

/-- The source's conditional subtraction on a 5-bit value is the balanced
modulus `Int.bmod · 32`. -/
theorem twos_comp_5_eq_bmod (n : ℕ) (h : n < 32) :
    (if n &&& 16 ≠ 0 then (n : ℤ) - 32 else (n : ℤ)) = Int.bmod (n : ℤ) 32 := by
  rw [Int.bmod_def]
  simp only [and_16_ne_zero_iff n h]
  have hmod : (n : ℤ) % ((32 : ℕ) : ℤ) = (n : ℤ) :=
    Int.emod_eq_of_lt (by omega) (by omega)
  norm_num at hmod ⊢
  rw [hmod]
  split_ifs <;> omega

/-- The source's conditional subtraction on an 11-bit value is the balanced
modulus `Int.bmod · 2048`. -/
theorem twos_comp_11_eq_bmod (n : ℕ) (h : n < 2048) :
    (if n &&& 1024 ≠ 0 then (n : ℤ) - 2048 else (n : ℤ)) = Int.bmod (n : ℤ) 2048 := by
  rw [Int.bmod_def]
  simp only [and_1024_ne_zero_iff n h]
  have hmod : (n : ℤ) % ((2048 : ℕ) : ℤ) = (n : ℤ) :=
    Int.emod_eq_of_lt (by omega) (by omega)
  norm_num at hmod ⊢
  rw [hmod]
  split_ifs <;> omega

/-- Any masked value `n &&& 0x1F` is below 32. -/
theorem and_31_lt (n : ℕ) : n &&& 0x1F < 32 :=
  Nat.lt_succ_of_le Nat.and_le_right

/-- Any masked value `n &&& 0x7FF` is below 2048. -/
theorem and_2047_lt (n : ℕ) : n &&& 0x7FF < 2048 :=
  Nat.lt_succ_of_le Nat.and_le_right

/-- `parse_vout_mode` computes the balanced modulus of the low five bits. -/
theorem parse_vout_mode_eq_bmod (b : ℕ) :
    parse_vout_mode b = Int.bmod ((b &&& 0x1F : ℕ) : ℤ) 32 := by
  simp only [parse_vout_mode]
  exact twos_comp_5_eq_bmod _ (and_31_lt b)

/-- Claim C1: for every 16-bit raw value, the Linear11 decoder returns
m × 2^e where e is the 5-bit two's-complement interpretation of bits 15:11
and m is the 11-bit two's-complement interpretation of bits 10:0 (both
expressed here as the balanced modulus `Int.bmod`, which subtracts 32
exactly when bit 4 of `raw>>11 & 0x1F` is set, resp. 2048 exactly when
bit 10 of `raw & 0x7FF` is set). -/
theorem parse_linear11_spec (raw : ℕ) (h : raw < 65536) :
    parse_linear11 raw =
      ((Int.bmod ((raw &&& 0x7FF : ℕ) : ℤ) 2048 : ℤ) : ℚ) *
        (2 : ℚ) ^ (Int.bmod (((raw >>> 11) &&& 0x1F : ℕ) : ℤ) 32) := by
  simp only [parse_linear11]
  rw [twos_comp_5_eq_bmod _ (and_31_lt (raw >>> 11)),
    twos_comp_11_eq_bmod _ (and_2047_lt raw)]

/-- Witness for C1 at raw = 0xD204 (negative exponent −6, mantissa 516). -/
theorem parse_linear11_spec_witness :
    (0xD204 : ℕ) < 65536 ∧
      parse_linear11 0xD204 =
        ((Int.bmod (((0xD204 : ℕ) &&& 0x7FF : ℕ) : ℤ) 2048 : ℤ) : ℚ) *
          (2 : ℚ) ^ (Int.bmod ((((0xD204 : ℕ) >>> 11) &&& 0x1F : ℕ) : ℤ) 32) :=
  ⟨by norm_num, parse_linear11_spec 0xD204 (by norm_num)⟩

/-- powertool.py's inlined `Read_Iout` Linear11 decode agrees with the shared
library's `parse_linear11`. -/
theorem Read_Iout_decode_eq (data : ℕ) : Read_Iout_decode data = parse_linear11 data := by
  simp only [Read_Iout_decode, parse_linear11, twos_comp, Nat.shiftLeft_eq]
  norm_num

/-- Embedding of `PowerToolI2C.Read_Vout` (powertool.py, the legacy copy):
`try` reads VOUT_MODE (`some b`, masked with 0xFF inside `Read_VOUT_MODE`)
and uses its decoded exponent literally — this copy has no zero-exponent
substitution; `except` (`none`) uses −10.  The value is computed inline as
`data * 2**exponent`. -/
def PowerTool_Read_Vout (vout_mode : Option ℕ) (raw_value : ℕ) : ℚ :=
  let exponent : ℤ :=
    match vout_mode with
    | some b => parse_vout_mode (b &&& 0xFF)
    | none => -10
  (raw_value : ℚ) * (2 : ℚ) ^ exponent

/-- The VOUT_MODE byte masked to 0xFF decodes like the unmasked byte. -/
theorem parse_vout_mode_masked (b : ℕ) :
    parse_vout_mode (b &&& 0xFF) = Int.bmod ((b &&& 0x1F : ℕ) : ℤ) 32 := by
  rw [parse_vout_mode_eq_bmod]
  have h255 : (255 &&& 31 : ℕ) = 31 := by decide
  have : (b &&& 0xFF) &&& 0x1F = b &&& 0x1F := by
    rw [Nat.and_assoc, h255]
  rw [this]

/-- Claim C2 counterexample: the claim's cited decode path
`PowerToolI2C.Read_Vout` (powertool.py) uses a successfully decoded
exponent of exactly 0 literally.  For VOUT_MODE byte 0x00 (decoded exponent
0) and raw word 0x0400 it computes 0x400 × 2^0 = 1024 — not the
0x400 × 2^−10 = 1 that the claimed −10 substitution demands (and that the
shared-library path `Read_Vout` does compute). -/
theorem PowerTool_Read_Vout_zero_exponent_counterexample :
    PowerTool_Read_Vout (some 0x00) 0x0400 = 1024 ∧
      PowerTool_Read_Vout (some 0x00) 0x0400 ≠ (0x0400 : ℚ) * (2 : ℚ) ^ (-10 : ℤ) ∧
      Read_Vout (some 0x00) 0x0400 = 1 := by
  have h0 : parse_vout_mode (0x00 &&& 0xFF) = 0 := by decide
  refine ⟨?_, ?_, ?_⟩
  · simp only [PowerTool_Read_Vout, h0]
    norm_num
  · simp only [PowerTool_Read_Vout, h0]
    norm_num
  · simp only [Read_Vout, parse_linear16, h0]
    norm_num

/-- Claim C2 (amended): the shared-library VOUT decode path
(`PMBusCommands.Read_Vout` / `convert_vout`, pmbus_common.py) applies the
5-bit two's-complement of the low 5 bits of the VOUT_MODE byte
(`Int.bmod · 32` of `b &&& 0x1F`), except that a failed VOUT_MODE read
(`none`) or a decoded exponent of exactly 0 yields −10 instead; the legacy
copy `PowerToolI2C.Read_Vout` (powertool.py) substitutes −10 only on a
failed read and uses a decoded exponent of 0 literally.  On both paths,
VOUT_MODE byte 0xF6 with raw word 0x2A00 gives exactly 10.5 V. -/
theorem Read_Vout_spec_amended :
    (∀ b raw : ℕ,
        Read_Vout (some b) raw =
          (raw : ℚ) * (2 : ℚ) ^
            (if Int.bmod ((b &&& 0x1F : ℕ) : ℤ) 32 = 0 then (-10 : ℤ)
             else Int.bmod ((b &&& 0x1F : ℕ) : ℤ) 32)) ∧
    (∀ raw : ℕ, Read_Vout none raw = (raw : ℚ) * (2 : ℚ) ^ (-10 : ℤ)) ∧
    (∀ b raw : ℕ,
        PowerTool_Read_Vout (some b) raw =
          (raw : ℚ) * (2 : ℚ) ^ Int.bmod ((b &&& 0x1F : ℕ) : ℤ) 32) ∧
    (∀ raw : ℕ, PowerTool_Read_Vout none raw = (raw : ℚ) * (2 : ℚ) ^ (-10 : ℤ)) ∧
    Read_Vout (some 0xF6) 0x2A00 = 10.5 ∧
    convert_vout 0x2A00 0xF6 = 10.5 ∧
    PowerTool_Read_Vout (some 0xF6) 0x2A00 = 10.5 := by
  refine ⟨?_, ?_, ?_, ?_, ?_, ?_, ?_⟩
  · intro b raw
    simp only [Read_Vout, parse_linear16, parse_vout_mode_masked b]
  · intro raw
    simp only [Read_Vout, parse_linear16]
  · intro b raw
    simp only [PowerTool_Read_Vout, parse_vout_mode_masked b]
  · intro raw
    simp only [PowerTool_Read_Vout]
  · have he : Int.bmod (((0xF6 &&& 0x1F : ℕ)) : ℤ) 32 = -10 := by decide
    simp only [Read_Vout, parse_linear16, parse_vout_mode_masked 0xF6, he]
    norm_num
  · have he : Int.bmod (((0xF6 &&& 0x1F : ℕ)) : ℤ) 32 = -10 := by decide
    simp only [convert_vout, parse_vout_mode_eq_bmod, parse_linear16, he]
    norm_num
  · have he : Int.bmod (((0xF6 &&& 0x1F : ℕ)) : ℤ) 32 = -10 := by decide
    simp only [PowerTool_Read_Vout, parse_vout_mode_masked 0xF6, he]
    norm_num

/-- Truncation toward zero: the semantics of Python's `int()` on a float. -/
def ratTrunc (q : ℚ) : ℤ := if q < 0 then -⌊-q⌋ else ⌊q⌋

/-- The `vid_step_table` dict of `Read_VID_Resolution` (powertool.py), values
in mV, together with the dict-lookup default 0.9765625 used by `.get`. -/
def vid_step_table (code : ℕ) : ℚ :=
  if code = 0 then 6.25
  else if code = 1 then 5.0
  else if code = 2 then 2.5
  else if code = 3 then 2.0
  else if code = 4 then 1.0
  else if code = 5 then 1.0 / 256
  else if code = 6 then 1.0 / 512
  else if code = 7 then 1.0 / 1024
  else 0.9765625

/-- Embedding of `PowerToolI2C.Read_VID_Resolution` (powertool.py).  `some
data` is a successful register read of MFR_VID_RES_R1; the step in volts is
derived from bits 12:10, with code 7 — or an all-ones register on page 0 —
overridden to 1000/1024 mV.  `none` is the `except` branch, which returns
0.0009765625 V. -/
def Read_VID_Resolution (page : ℕ) (vid_res_data : Option ℕ) : ℚ :=
  match vid_res_data with
  | none => 0.0009765625
  | some data =>
    let vid_step_code := (data >>> 10) &&& 0x07
    let vid_step_mv : ℚ :=
      if vid_step_code = 7 ∨ (page = 0 ∧ data = 0xFFFF) then 1000 / 1024
      else vid_step_table vid_step_code
    vid_step_mv / 1000

/-- The VID-code computation of `PowerToolI2C.Write_Vout_Command`
(powertool.py): `int(voltage / vid_step)` truncated toward zero, then
clamped into [0, 0xFFF]. -/
def Write_Vout_Command_code (voltage vid_step : ℚ) : ℤ :=
  let vid_code := ratTrunc (voltage / vid_step)
  if vid_code < 0 then 0 else if vid_code > 0xFFF then 0xFFF else vid_code

/-- The word written to VOUT_COMMAND: the clamped code masked with 0xFFF. -/
def Write_Vout_Command_raw (voltage vid_step : ℚ) : ℕ :=
  (Write_Vout_Command_code voltage vid_step).toNat &&& 0xFFF

/-- Clamping the truncated quotient coincides with clamping the floor. -/
theorem clamp_ratTrunc_eq_clamp_floor (q : ℚ) :
    (if ratTrunc q < 0 then 0 else if ratTrunc q > 0xFFF then 0xFFF else ratTrunc q) =
      max 0 (min 0xFFF ⌊q⌋) := by
  unfold ratTrunc
  by_cases hq : q < 0
  · have h1 : ⌊q⌋ ≤ 0 := Int.floor_nonpos (le_of_lt hq)
    have h2 : 0 ≤ ⌊-q⌋ := Int.floor_nonneg.mpr (by linarith)
    simp only [if_pos hq]
    split_ifs <;> omega
  · push_neg at hq
    have h1 : 0 ≤ ⌊q⌋ := Int.floor_nonneg.mpr hq
    simp only [if_neg (not_lt.mpr hq)]
    split_ifs <;> omega

/-- The clamped code lies in [0, 0xFFF]. -/
theorem Write_Vout_Command_code_range (voltage vid_step : ℚ) :
    0 ≤ Write_Vout_Command_code voltage vid_step ∧
      Write_Vout_Command_code voltage vid_step ≤ 0xFFF := by
  simp only [Write_Vout_Command_code]
  split_ifs <;> omega

/-- The 0xFFF mask on the written word is the identity on the clamped code. -/
theorem Write_Vout_Command_raw_eq_code (voltage vid_step : ℚ) :
    (Write_Vout_Command_raw voltage vid_step : ℤ) =
      Write_Vout_Command_code voltage vid_step := by
  obtain ⟨h0, h1⟩ := Write_Vout_Command_code_range voltage vid_step
  unfold Write_Vout_Command_raw
  have hlt : (Write_Vout_Command_code voltage vid_step).toNat < 2 ^ 12 := by omega
  have hm := Nat.and_pow_two_sub_one_eq_mod
    (Write_Vout_Command_code voltage vid_step).toNat 12
  have : (2 : ℕ) ^ 12 - 1 = 0xFFF := by norm_num
  rw [this] at hm
  rw [hm, Nat.mod_eq_of_lt (by norm_num at hlt ⊢; omega)]
  omega

/-- Claim C3: for every target voltage and every positive VID step, the VID
code written equals floor(voltage / step) clamped to [0, 0xFFF], and in
particular never exceeds 0xFFF. -/
theorem Write_Vout_Command_spec (voltage vid_step : ℚ) (hstep : 0 < vid_step) :
    (Write_Vout_Command_raw voltage vid_step : ℤ) =
        max 0 (min 0xFFF ⌊voltage / vid_step⌋) ∧
      Write_Vout_Command_raw voltage vid_step ≤ 0xFFF := by
  have h1 := Write_Vout_Command_raw_eq_code voltage vid_step
  have h2 := Write_Vout_Command_code_range voltage vid_step
  constructor
  · rw [h1]
    rw [show Write_Vout_Command_code voltage vid_step =
      (if ratTrunc (voltage / vid_step) < 0 then 0
       else if ratTrunc (voltage / vid_step) > 0xFFF then 0xFFF
       else ratTrunc (voltage / vid_step)) from rfl]
    exact clamp_ratTrunc_eq_clamp_floor (voltage / vid_step)
  · omega

/-- Witness for C3 at voltage 0.6 V, step 1/1024 V. -/
theorem Write_Vout_Command_spec_witness :
    (0 : ℚ) < 1 / 1024 ∧
      ((Write_Vout_Command_raw (3 / 5) (1 / 1024) : ℤ) =
          max 0 (min 0xFFF ⌊(3 / 5 : ℚ) / (1 / 1024)⌋) ∧
        Write_Vout_Command_raw (3 / 5) (1 / 1024) ≤ 0xFFF) :=
  ⟨by norm_num, Write_Vout_Command_spec (3 / 5) (1 / 1024) (by norm_num)⟩

/-- Claim C4: the VID step derived from the resolution register's 3-bit code
(bits 12:10) resolves code 7 to exactly 1000/1024 mV = 1000/1024/1000 V,
overriding the naive table entry of 1/1024 mV, and resolves code 0 to
6.25 mV = 0.00625 V. -/
theorem Read_VID_Resolution_spec (page data : ℕ) :
    ((data >>> 10) &&& 0x07 = 7 →
        Read_VID_Resolution page (some data) = 1000 / 1024 / 1000) ∧
    ((data >>> 10) &&& 0x07 = 0 →
        Read_VID_Resolution page (some data) = 0.00625) ∧
    vid_step_table 7 = 1 / 1024 ∧ (1000 / 1024 : ℚ) ≠ vid_step_table 7 := by
  refine ⟨?_, ?_, ?_, ?_⟩
  · intro h7
    simp only [Read_VID_Resolution, h7]
    norm_num
  · intro h0
    have hne : data ≠ 0xFFFF := by
      intro heq
      rw [heq] at h0
      exact absurd h0 (by decide)
    simp only [Read_VID_Resolution, h0, vid_step_table]
    have hcond : ¬((0 : ℕ) = 7 ∨ (page = 0 ∧ data = 0xFFFF)) := by
      push_neg
      exact ⟨by norm_num, fun _ => hne⟩
    rw [if_neg hcond]
    norm_num
  · simp only [vid_step_table]
    norm_num
  · simp only [vid_step_table]
    norm_num

/-- Witness for C4 at register values 0x1C00 (code 7) and 0x0000 (code 0). -/
theorem Read_VID_Resolution_spec_witness :
    ((0x1C00 : ℕ) >>> 10 &&& 0x07 = 7 ∧
        Read_VID_Resolution 1 (some 0x1C00) = 1000 / 1024 / 1000) ∧
      ((0 : ℕ) >>> 10 &&& 0x07 = 0 ∧
        Read_VID_Resolution 1 (some 0) = 0.00625) :=
  ⟨⟨by decide, (Read_VID_Resolution_spec 1 0x1C00).1 (by decide)⟩,
   ⟨by decide, (Read_VID_Resolution_spec 1 0).2.1 (by decide)⟩⟩

/-- Claim C5 counterexample: with the all-ones register value 0xFFFF on page
0, `Read_VID_Resolution` derives 1000/1024 mV = 0.0009765625 V, not the
0.25 mV = 0.00025 V stated by the claim. -/
theorem Read_VID_Resolution_all_ones_counterexample :
    Read_VID_Resolution 0 (some 0xFFFF) ≠ 0.25 / 1000 ∧
      Read_VID_Resolution 0 (some 0xFFFF) = 1 / 1024 := by
  constructor <;> · simp only [Read_VID_Resolution]; norm_num

/-- Claim C5 (amended): when the VID resolution register reads as all-ones
(0xFFFF) on the rail variant at page 0, the derived VID step is 1000/1024 mV
(0.0009765625 V), the same value as resolution code 7 — not 0.25 mV. -/
theorem Read_VID_Resolution_all_ones :
    Read_VID_Resolution 0 (some 0xFFFF) = 1000 / 1024 / 1000 := by
  simp only [Read_VID_Resolution]
  norm_num

/-- The two hex digits produced by Python's `'%02x' % b` for a byte value
(exact for b < 256): high nibble then low nibble. -/
def hexByte (b : ℕ) : List ℕ := [b / 16, b % 16]

/-- Python's `int(s, 16)` on a non-empty big-endian hex digit string. -/
def parseHexDigits (ds : List ℕ) : ℕ := ds.foldl (fun a d => 16 * a + d) 0

/-- Embedding of `byteArrayToLittleEndian` (Sugarloaf_I2C_ver2.py and
powertool.py): reverse the byte list, format each byte as two hex digits,
join them all, and parse the joined string as a single hex number. -/
def byteArrayToLittleEndian (data_array : List ℕ) : ℕ :=
  parseHexDigits ((data_array.reverse.map hexByte).flatten)

/-- Parsing the concatenated hex-digit pairs base 16 is parsing the byte
list base 256. -/
theorem parseHexDigits_flatten (L : List ℕ) (a : ℕ) :
    ((L.map hexByte).flatten).foldl (fun a d => 16 * a + d) a =
      L.foldl (fun a b => 256 * a + b) a := by
  induction L generalizing a with
  | nil => rfl
  | cons b t ih =>
    simp only [List.map_cons, List.flatten_cons, List.foldl_append, hexByte,
      List.foldl_cons, List.foldl_nil]
    rw [show 16 * (16 * a + b / 16) + b % 16 = 256 * a + b by omega]
    exact ih _

/-- Folding base 256 over the reversed list computes the little-endian sum. -/
theorem foldl256_reverse_eq_sum (l : List ℕ) :
    l.reverse.foldl (fun a b => 256 * a + b) 0 =
      ∑ i ∈ Finset.range l.length, l.getD i 0 * 256 ^ i := by
  induction l with
  | nil => rfl
  | cons b t ih =>
    rw [List.reverse_cons, List.foldl_append]
    simp only [List.foldl_cons, List.foldl_nil]
    rw [ih, List.length_cons, Finset.sum_range_succ']
    simp only [List.getD_cons_succ, List.getD_cons_zero, pow_zero, mul_one]
    have hstep : ∀ i : ℕ, t.getD i 0 * 256 ^ (i + 1) = 256 * (t.getD i 0 * 256 ^ i) := by
      intro i; ring
    simp only [hstep]
    rw [← Finset.mul_sum]

/-- Claim C6: for every non-empty list of bytes returned by the transport
read primitive, the assembled integer equals Σ byte[i]·256^i — the
first-arriving byte is the least-significant byte. -/
theorem byteArrayToLittleEndian_spec (l : List ℕ) (hne : l ≠ [])
    (hb : ∀ b ∈ l, b < 256) :
    byteArrayToLittleEndian l =
      ∑ i ∈ Finset.range l.length, l.getD i 0 * 256 ^ i := by
  unfold byteArrayToLittleEndian parseHexDigits
  rw [parseHexDigits_flatten]
  exact foldl256_reverse_eq_sum l

/-- Witness for C6 on the byte list [0x34, 0x12] (value 0x1234). -/
theorem byteArrayToLittleEndian_spec_witness :
    ([0x34, 0x12] : List ℕ) ≠ [] ∧ (∀ b ∈ ([0x34, 0x12] : List ℕ), b < 256) ∧
      byteArrayToLittleEndian [0x34, 0x12] =
        ∑ i ∈ Finset.range ([0x34, 0x12] : List ℕ).length,
          ([0x34, 0x12] : List ℕ).getD i 0 * 256 ^ i :=
  ⟨by decide, by decide, byteArrayToLittleEndian_spec [0x34, 0x12] (by decide) (by decide)⟩

/-- Loop state of `continuous_logging`: samples written, errors counted, and
whether the error ceiling has broken the loop. -/
structure LogState where
  sampleCount : ℕ
  errorCount : ℕ
  aborted : Bool
deriving DecidableEq

/-- `sample_count = 0`, `error_count = 0` before the loop starts. -/
def initLogState : LogState := ⟨0, 0, false⟩

/-- One iteration of the `while True` loop of `continuous_logging`
(powertool.py, Sugarloaf_I2C_ver2.py) against a transport whose every read
raises, with the duration not yet exceeded: the `except` branch increments
`error_count` and the loop breaks once `error_count > 10` (the hard-coded
ceiling).  A broken loop stays broken. -/
def failingTick (s : LogState) : LogState :=
  if s.aborted then s
  else
    let ec := s.errorCount + 1
    { s with errorCount := ec, aborted := decide (ec > 10) }

/-- Closed form of the failing loop after n iterations. -/
theorem failingTick_iterate (n : ℕ) :
    (failingTick^[n] initLogState).sampleCount = 0 ∧
      (failingTick^[n] initLogState).errorCount = min n 11 ∧
      ((failingTick^[n] initLogState).aborted = true ↔ 11 ≤ n) := by
  induction n with
  | zero => simp [initLogState]
  | succ n ih =>
    obtain ⟨ih1, ih2, ih3⟩ := ih
    rw [Function.iterate_succ_apply']
    rcases hb : (failingTick^[n] initLogState).aborted with _ | _
    · have hn : ¬ 11 ≤ n := fun h => by simp [ih3.mpr h] at hb
      simp only [failingTick, hb, Bool.false_eq_true, if_false, ih2]
      refine ⟨ih1, by omega, ?_⟩
      rw [decide_eq_true_eq]
      omega
    · have hn : 11 ≤ n := ih3.mp hb
      simp only [failingTick, hb, if_true]
      refine ⟨ih1, by omega, ?_⟩
      simp only [hb, true_iff]
      omega

/-- Claim C7: against a transport failing every attempt, the logging loop is
aborted exactly when at least 11 attempts have run — 10 recorded errors plus
the triggering 11th (the ceiling defaults to 10) — never before and never
after; at the 11th attempt the error count is exactly 11 and no sample was
recorded. -/
theorem continuous_logging_abort_spec (n : ℕ) :
    ((failingTick^[n] initLogState).aborted = true ↔ 11 ≤ n) ∧
      (failingTick^[n] initLogState).errorCount = min n 11 ∧
      (failingTick^[11] initLogState).errorCount = 11 ∧
      (failingTick^[n] initLogState).sampleCount = 0 := by
  obtain ⟨h1, h2, h3⟩ := failingTick_iterate n
  obtain ⟨-, h4, -⟩ := failingTick_iterate 11
  exact ⟨h3, h2, by omega, h1⟩

/-- The 16-entry STATUS_WORD bit-name table of `decode_status_word`
(pmbus_common.py). -/
def status_word_bit_defs : List (ℕ × String) :=
  [(15, "VOUT"), (14, "IOUT"), (13, "INPUT"), (12, "MFR_SPECIFIC"),
   (11, "POWER_GOOD_N"), (10, "RESERVED_10"), (9, "RESERVED_9"),
   (8, "WATCH_DOG_OVF"), (7, "NVM_BUSY"), (6, "OFF"), (5, "VOUT_OV_FAULT"),
   (4, "IOUT_OC_FAULT"), (3, "VIN_UV_FAULT"), (2, "TEMPERATURE"), (1, "CML"),
   (0, "OTHER_FAULT")]

/-- Embedding of `decode_status_word` (pmbus_common.py): every named bit is
decoded to its active flag `(status_word >> bit) & 1 == 1`. -/
def decode_status_word (status_word : ℕ) : List (String × Bool) :=
  status_word_bit_defs.map (fun bd => (bd.2, ((status_word >>> bd.1) &&& 1) == 1))

/-- The active-fault summary computed by `format_status_word`
(pmbus_common.py): names of active bits, with RESERVED_9 and RESERVED_10
excluded. -/
def status_word_active_faults (status_word : ℕ) : List String :=
  ((decode_status_word status_word).filter
      (fun e => e.2 && !(e.1 == "RESERVED_9" || e.1 == "RESERVED_10"))).map
    (fun e => e.1)

/-- Claim C9: STATUS_WORD 0x0000 decodes to zero active faults and 0x8000 to
exactly one, named for bit 15 (VOUT); the reserved bits 9 and 10 are always
decoded but never appear in the active-fault summary. -/
theorem decode_status_word_spec :
    status_word_active_faults 0x0000 = [] ∧
    status_word_active_faults 0x8000 = ["VOUT"] ∧
    (∀ w : ℕ, "RESERVED_9" ∉ status_word_active_faults w ∧
        "RESERVED_10" ∉ status_word_active_faults w) ∧
    (∀ w : ℕ, ("RESERVED_9", ((w >>> 9) &&& 1) == 1) ∈ decode_status_word w ∧
        ("RESERVED_10", ((w >>> 10) &&& 1) == 1) ∈ decode_status_word w) := by
  refine ⟨by decide, by decide, ?_, ?_⟩
  · intro w
    constructor <;>
    · intro hmem
      obtain ⟨e, he, heq⟩ := List.mem_map.mp hmem
      obtain ⟨-, he2⟩ := List.mem_filter.mp he
      simp only [heq] at he2
      simp at he2
  · intro w
    exact ⟨List.mem_map.mpr ⟨(9, "RESERVED_9"), by decide, rfl⟩,
      List.mem_map.mpr ⟨(10, "RESERVED_10"), by decide, rfl⟩⟩

/-- One I2C transaction issued through the serial PowerTool bus helpers. -/
inductive BusOp where
  /-- `i2c_write8PMBus reg data` -/
  | writeByte (reg : ℕ) (data : ℕ)
  /-- `i2c_read16PMBus page reg` -/
  | readWord (page : ℕ) (reg : ℕ)
  /-- `i2c_write16PMBus page reg data` -/
  | writeWord (page : ℕ) (reg : ℕ) (data : ℕ)
deriving DecidableEq

/-- The `rail_mapping` dict of `execute_vout_command` (powertool.py). -/
def rail_mapping (rail : String) : Option ℕ :=
  if rail == "TSP_CORE" then some 0
  else if rail == "TSP_C2C" then some 1
  else none

/-- The three control-flow outcomes of `execute_vout_command`: invalid rail
name, the distinct out-of-range rejection, or proceeding to the bus. -/
inductive ExecResult where
  | invalidRail
  | outOfRange
  | proceeded
deriving DecidableEq

/-- Bus transactions of `PowerToolI2C.Read_Vout page` (powertool.py): the
READ_VOUT word read, then `Read_VOUT_MODE`'s PAGE write and VOUT_MODE read. -/
def Read_Vout_ops (page : ℕ) : List BusOp :=
  [.readWord page 0x8B, .writeByte 0x00 page, .readWord page 0x20]

/-- Bus transactions of `PowerToolI2C.Write_Vout_Command page voltage`
(powertool.py) when the MFR_VID_RES_R1 read returns `vid_res_data`: the PAGE
and OPERATION byte writes, the MFR_VID_RES_R1 word read inside
`Read_VID_Resolution`, then the VOUT_COMMAND word write of the clamped VID
code. -/
def Write_Vout_Command_ops (page : ℕ) (voltage : ℚ) (vid_res_data : Option ℕ) :
    List BusOp :=
  [.writeByte 0x00 page, .writeByte 0x01 0x80, .readWord page 0x29,
   .writeWord page 0x21
     (Write_Vout_Command_raw voltage (Read_VID_Resolution page vid_res_data))]

/-- Embedding of `execute_vout_command(rail, voltage)` (powertool.py): rail
validation, then the 0.3–3.3 V policy guard — both decided before any bus
object exists — then the bus sequence: read the present voltage, write the
VID code, read back after settling.  The returned list is every bus
transaction issued. -/
def execute_vout_command (rail : String) (voltage : ℚ) (vid_res_data : Option ℕ) :
    ExecResult × List BusOp :=
  match rail_mapping rail with
  | none => (.invalidRail, [])
  | some page =>
    if voltage < 0.3 ∨ voltage > 3.3 then (.outOfRange, [])
    else (.proceeded,
      Read_Vout_ops page ++ Write_Vout_Command_ops page voltage vid_res_data ++
        Read_Vout_ops page)

/-- Claim C8: a target voltage strictly below 0.3 V or strictly above 3.3 V
is rejected with the distinct out-of-range outcome before any bus I/O — the
transaction list is empty — while an in-envelope voltage passes the guard
and does reach the bus. -/
theorem execute_vout_command_spec (voltage : ℚ) (vid_res_data : Option ℕ) :
    ((voltage < 0.3 ∨ voltage > 3.3) →
        execute_vout_command "TSP_CORE" voltage vid_res_data = (.outOfRange, []) ∧
        execute_vout_command "TSP_C2C" voltage vid_res_data = (.outOfRange, [])) ∧
    (0.3 ≤ voltage → voltage ≤ 3.3 →
        (execute_vout_command "TSP_CORE" voltage vid_res_data).1 = .proceeded ∧
        (execute_vout_command "TSP_C2C" voltage vid_res_data).1 = .proceeded ∧
        (execute_vout_command "TSP_CORE" voltage vid_res_data).2 ≠ []) := by
  have hcore : rail_mapping "TSP_CORE" = some 0 := by decide
  have hc2c : rail_mapping "TSP_C2C" = some 1 := by decide
  constructor
  · intro hout
    constructor <;>
    · simp only [execute_vout_command, hcore, hc2c]
      rw [if_pos hout]
  · intro hlo hhi
    have hin : ¬(voltage < 0.3 ∨ voltage > 3.3) := by
      push_neg
      exact ⟨hlo, hhi⟩
    refine ⟨?_, ?_, ?_⟩ <;>
      simp only [execute_vout_command, hcore, hc2c, if_neg hin, Read_Vout_ops,
        Write_Vout_Command_ops] <;> simp

/-- Witness for C8 at 0.1 V (rejected, no bus op) and 1.0 V (passes). -/
theorem execute_vout_command_spec_witness :
    (((1 / 10 : ℚ) < 0.3 ∨ (1 / 10 : ℚ) > 3.3) ∧
        execute_vout_command "TSP_CORE" (1 / 10) (some 0x1C00) = (.outOfRange, [])) ∧
      ((0.3 : ℚ) ≤ 1 ∧ (1 : ℚ) ≤ 3.3 ∧
        (execute_vout_command "TSP_CORE" 1 (some 0x1C00)).1 = .proceeded) :=
  ⟨⟨by norm_num,
    (((execute_vout_command_spec (1 / 10) (some 0x1C00)).1 (by norm_num))).1⟩,
   by norm_num, by norm_num,
   (((execute_vout_command_spec 1 (some 0x1C00)).2 (by norm_num) (by norm_num))).1⟩

/-- The two `raise ValueError` sites of `Write_IOUT_OC_WARN_LIMIT`; in both
cases the register write is never reached. -/
inductive LimitWriteError where
  | scaleZero
  | exceedsMax
deriving DecidableEq

/-- Embedding of `PMBusCommands.Read_IOUT_Scale` (pmbus_common.py):
IOUT_SCALE_BIT_A is bits 2:0 of MFR_VR_CONFIG. -/
def Read_IOUT_Scale (mfr_vr_config : ℕ) : ℕ := mfr_vr_config &&& 0x07

/-- Embedding of `PMBusCommands.Write_IOUT_OC_WARN_LIMIT` (pmbus_common.py):
LSB = 8 × IOUT_SCALE_BIT_A; raise if the LSB is zero; otherwise
`limit_raw = int(limit_amps / lsb)` (truncation toward zero); raise if
`limit_raw > 255`; otherwise the word `limit_raw` is written to
IOUT_OC_WARN_LIMIT — `.ok` carries the written value. -/
def Write_IOUT_OC_WARN_LIMIT (limit_amps : ℚ) (mfr_vr_config : ℕ) :
    Except LimitWriteError ℤ :=
  let iout_scale := Read_IOUT_Scale mfr_vr_config
  let lsb := 8 * iout_scale
  if lsb = 0 then .error .scaleZero
  else
    let limit_raw := ratTrunc (limit_amps / (lsb : ℚ))
    if limit_raw > 255 then .error .exceedsMax
    else .ok limit_raw

/-- Truncation toward zero agrees with the floor on nonnegative arguments. -/
theorem ratTrunc_eq_floor_of_nonneg (q : ℚ) (h : 0 ≤ q) : ratTrunc q = ⌊q⌋ := by
  unfold ratTrunc
  rw [if_neg (not_lt.mpr h)]

/-- Claim C10 counterexample: at limit −100 A with MFR_VR_CONFIG = 1 (scale
1, LSB 8 A) the code writes `int(-100/8) = -12`, whereas the claim's
`floor(-100/8) = -13`; so the claim fails for negative limits (and the
written word's upper 8 bits are not zero either). -/
theorem Write_IOUT_OC_WARN_LIMIT_counterexample :
    Write_IOUT_OC_WARN_LIMIT (-100) 1 = .ok (-12) ∧
      ⌊(-100 : ℚ) / ((8 * Read_IOUT_Scale 1 : ℕ) : ℚ)⌋ = -13 ∧ (-12 : ℤ) ≠ -13 := by
  have hscale : Read_IOUT_Scale 1 = 1 := by decide
  have hq : (-100 : ℚ) / ((8 : ℕ) : ℚ) = -25 / 2 := by norm_num
  have hfloor : ⌊(-25 / 2 : ℚ)⌋ = -13 := by
    rw [Int.floor_eq_iff] <;> norm_num
  have hfloor2 : ⌊(25 / 2 : ℚ)⌋ = 12 := by
    rw [Int.floor_eq_iff] <;> norm_num
  refine ⟨?_, ?_, by norm_num⟩
  · simp only [Write_IOUT_OC_WARN_LIMIT, Read_IOUT_Scale]
    norm_num [ratTrunc, hfloor2]
  · rw [hscale]
    norm_num [hfloor]

/-- Claim C10 (amended): for every nonnegative limit, the write raises and
never touches the register exactly when the IOUT LSB `8 × scale` is zero or
`floor(limit/(8·scale))` exceeds 255; otherwise exactly
`floor(limit/(8·scale))` is written, and it lies in [0, 255], so the upper
8 bits of the written word are zero.  (For negative limits the code
truncates toward zero instead of flooring — see the counterexample.) -/
theorem Write_IOUT_OC_WARN_LIMIT_spec (limit_amps : ℚ) (mfr_vr_config : ℕ)
    (hnn : 0 ≤ limit_amps) :
    (Read_IOUT_Scale mfr_vr_config = 0 →
        Write_IOUT_OC_WARN_LIMIT limit_amps mfr_vr_config = .error .scaleZero) ∧
    (Read_IOUT_Scale mfr_vr_config ≠ 0 →
      (255 < ⌊limit_amps / ((8 * Read_IOUT_Scale mfr_vr_config : ℕ) : ℚ)⌋ →
          Write_IOUT_OC_WARN_LIMIT limit_amps mfr_vr_config = .error .exceedsMax) ∧
      (⌊limit_amps / ((8 * Read_IOUT_Scale mfr_vr_config : ℕ) : ℚ)⌋ ≤ 255 →
          Write_IOUT_OC_WARN_LIMIT limit_amps mfr_vr_config =
              .ok ⌊limit_amps / ((8 * Read_IOUT_Scale mfr_vr_config : ℕ) : ℚ)⌋ ∧
            0 ≤ ⌊limit_amps / ((8 * Read_IOUT_Scale mfr_vr_config : ℕ) : ℚ)⌋ ∧
            ⌊limit_amps / ((8 * Read_IOUT_Scale mfr_vr_config : ℕ) : ℚ)⌋ < 256)) := by
  have hq : (0 : ℚ) ≤ limit_amps / ((8 * Read_IOUT_Scale mfr_vr_config : ℕ) : ℚ) :=
    div_nonneg hnn (by positivity)
  have htr := ratTrunc_eq_floor_of_nonneg _ hq
  have hfl : 0 ≤ ⌊limit_amps / ((8 * Read_IOUT_Scale mfr_vr_config : ℕ) : ℚ)⌋ :=
    Int.floor_nonneg.mpr hq
  refine ⟨?_, ?_⟩
  · intro h0
    simp only [Write_IOUT_OC_WARN_LIMIT, h0]
    norm_num
  · intro hne
    have h8 : ¬(8 * Read_IOUT_Scale mfr_vr_config = 0) := by omega
    constructor
    · intro hbig
      simp only [Write_IOUT_OC_WARN_LIMIT, if_neg h8, htr]
      rw [if_pos (by omega)]
    · intro hsmall
      simp only [Write_IOUT_OC_WARN_LIMIT, if_neg h8, htr]
      rw [if_neg (by omega)]
      exact ⟨rfl, hfl, by omega⟩

/-- Witness for C10 (amended) at limit 100 A, MFR_VR_CONFIG = 1. -/
theorem Write_IOUT_OC_WARN_LIMIT_spec_witness :
    (0 : ℚ) ≤ 100 ∧
      (Read_IOUT_Scale 1 = 0 →
          Write_IOUT_OC_WARN_LIMIT 100 1 = .error .scaleZero) ∧
      (Read_IOUT_Scale 1 ≠ 0 →
        (255 < ⌊(100 : ℚ) / ((8 * Read_IOUT_Scale 1 : ℕ) : ℚ)⌋ →
            Write_IOUT_OC_WARN_LIMIT 100 1 = .error .exceedsMax) ∧
        (⌊(100 : ℚ) / ((8 * Read_IOUT_Scale 1 : ℕ) : ℚ)⌋ ≤ 255 →
            Write_IOUT_OC_WARN_LIMIT 100 1 =
                .ok ⌊(100 : ℚ) / ((8 * Read_IOUT_Scale 1 : ℕ) : ℚ)⌋ ∧
              0 ≤ ⌊(100 : ℚ) / ((8 * Read_IOUT_Scale 1 : ℕ) : ℚ)⌋ ∧
              ⌊(100 : ℚ) / ((8 * Read_IOUT_Scale 1 : ℕ) : ℚ)⌋ < 256)) :=
  ⟨by norm_num, Write_IOUT_OC_WARN_LIMIT_spec 100 1 (by norm_num)⟩
